import Mathlib

/-!
# Verification of the learning-path generator

Shallow embedding of the `learning_path_generator` package
(`learning_path.py`, `youtube_client.py`, `medium_client.py`) and proofs of
the specification's testable properties.  External adapter results (the
YouTube API and the Medium RSS feed) are passed in explicitly, so every
definition is a pure function of its inputs, exactly mirroring the Python
control flow.
-/

namespace LPG

/-- The ASCII whitespace characters recognised by Python's `str.strip()` and
by the regex class `\s` used on line 63 of `learning_path.py`. -/
def pyIsSpace (c : Char) : Bool :=
  c = ' ' || c = '\t' || c = '\n' || c = '\r' || c = '\x0b' || c = '\x0c'

/-- Python `str.strip()` on a character list: drop leading and trailing
whitespace. -/
def pyStrip (l : List Char) : List Char :=
  ((l.dropWhile pyIsSpace).reverse.dropWhile pyIsSpace).reverse

/-- Python `str.lower()` restricted to ASCII letters: `A`–`Z` map to
`a`–`z`, every other character is unchanged. -/
def pyToLower (c : Char) : Char :=
  match c with
  | 'A' => 'a' | 'B' => 'b' | 'C' => 'c' | 'D' => 'd' | 'E' => 'e' | 'F' => 'f'
  | 'G' => 'g' | 'H' => 'h' | 'I' => 'i' | 'J' => 'j' | 'K' => 'k' | 'L' => 'l'
  | 'M' => 'm' | 'N' => 'n' | 'O' => 'o' | 'P' => 'p' | 'Q' => 'q' | 'R' => 'r'
  | 'S' => 's' | 'T' => 't' | 'U' => 'u' | 'V' => 'v' | 'W' => 'w' | 'X' => 'x'
  | 'Y' => 'y' | 'Z' => 'z' | c => c

/-- Single left-to-right pass implementing `re.sub(r"\s+", "-", ·)`:
`inRun` records whether the previous character was whitespace, so a `'-'` is
emitted exactly at the first character of each maximal whitespace run. -/
def subRunsAux (inRun : Bool) : List Char → List Char
  | [] => []
  | c :: rest =>
    if pyIsSpace c then
      (if inRun then [] else ['-']) ++ subRunsAux true rest
    else c :: subRunsAux false rest

/-- `re.sub(r"\s+", "-", ·)`: replace every maximal run of whitespace
characters by a single `'-'`. -/
def subSpaceRuns (l : List Char) : List Char := subRunsAux false l

/-- Line 63 of `learning_path.py`:
`tag_slug = re.sub(r"\s+", "-", skill.strip().lower())`. -/
def tag_slug (skill : String) : String :=
  ⟨subSpaceRuns ((pyStrip skill.data).map pyToLower)⟩

/-- Lines 78–83 of `learning_path.py`: the fixed week themes. -/
def default_themes : List String :=
  ["Foundations", "Core Concepts", "Advanced Topics", "Project & Practice"]

/-- `_suggest_activities` (lines 103–124 of `learning_path.py`). -/
def suggest_activities (week_index : Nat) (skill : String) : String :=
  if week_index = 0 then
    s!"Set up your environment for {skill}. Work through basic examples covered in the videos and summarise the key concepts in your own words."
  else if week_index = 1 then
    s!"Experiment with building small components or programs using {skill}. Complete exercises from articles and implement variations."
  else if week_index = 2 then
    "Apply what you’ve learned to a mini‑project. Focus on more advanced features and read deeper resources."
  else
    s!"Develop a capstone project incorporating multiple concepts of {skill}. Write a blog post or create a video summarising your project and share it."

/-- The padding loop of `generate_learning_path` (lines 71–74):
`while len(xs) < total and xs: xs.extend(xs)`.  Each iteration doubles the
list, so the measure `total - length` strictly decreases while the guard
holds. -/
def padLoop (total : Nat) (s : List α) : List α :=
  if h : s.length < total ∧ s.isEmpty = false then padLoop total (s ++ s) else s
termination_by total - s.length
decreasing_by
  have h1 : 0 < s.length := List.length_pos.mpr (List.isEmpty_eq_false.mp h.2)
  simp only [List.length_append]
  omega

/-- Exit case of the padding loop: the guard fails, the list is returned. -/
theorem padLoop_stop {total : Nat} {s : List α}
    (h : ¬(s.length < total ∧ s.isEmpty = false)) : padLoop total s = s := by
  rw [padLoop]
  exact dif_neg h

/-- Step case of the padding loop: the guard holds, the list is doubled. -/
theorem padLoop_go {total : Nat} {s : List α}
    (h1 : s.length < total) (h2 : s.isEmpty = false) :
    padLoop total s = padLoop total (s ++ s) := by
  rw [padLoop]
  exact dif_pos ⟨h1, h2⟩

/-- Python list slice `l[a:b]` for non-negative bounds (`b ≤ a` gives `[]`). -/
def pySlice (l : List α) (a b : Nat) : List α := (l.drop a).take (b - a)

/-- One element of the plan returned by `generate_learning_path`: the dict
with keys `week`, `theme`, `videos`, `articles`, `activities`. -/
structure WeekPlan (V A : Type) where
  week : Nat
  theme : String
  videos : List V
  articles : List A
  activities : String
  deriving Repr, DecidableEq

/-- `generate_learning_path` (lines 17–100 of `learning_path.py`).  The two
adapters are passed as functions (`search_videos_fn` closes over the API key
and search order, `get_articles_fn` over the feed transport), so the
assembler itself is pure: it computes the query string and tag slug, fetches,
pads by self-duplication, truncates, and partitions into weekly slices. -/
def generate_learning_path (skill : String)
    (weeks videos_per_week articles_per_week : Nat)
    (search_videos_fn : String → Nat → List V)
    (get_articles_fn : String → Nat → List A) : List (WeekPlan V A) :=
  let total_videos := weeks * videos_per_week
  let total_articles := weeks * articles_per_week
  let video_query := skill ++ " tutorial"
  let videos0 := search_videos_fn video_query total_videos
  let articles0 := get_articles_fn (tag_slug skill) total_articles
  let videos := (padLoop total_videos videos0).take total_videos
  let articles := (padLoop total_articles articles0).take total_articles
  (List.range weeks).map fun week_num =>
    { week := week_num + 1
      theme := if h : week_num < default_themes.length
               then default_themes.get ⟨week_num, h⟩
               else s!"Week {week_num + 1}"
      videos := pySlice videos (week_num * videos_per_week) ((week_num + 1) * videos_per_week)
      articles := pySlice articles (week_num * articles_per_week) ((week_num + 1) * articles_per_week)
      activities := suggest_activities week_num skill }

/-- Fuel-indexed version of the padding loop, used to state its termination:
`none` means the loop was still running when the fuel ran out. -/
def padFuel (fuel total : Nat) (s : List α) : Option (List α) :=
  match fuel with
  | 0 => if s.length < total ∧ s.isEmpty = false then none else some s
  | f + 1 =>
    if s.length < total ∧ s.isEmpty = false then padFuel f total (s ++ s)
    else some s

/-! ## YouTube client (`youtube_client.py`) -/

/-- One item of the primary `search.list` response: `item["id"]["videoId"]`
plus the `snippet` fields read by `search_videos`; a `snippet` key may be
absent, read with `snippet.get(key, "")`. -/
structure SearchItem where
  videoId : String
  title : Option String
  channelTitle : Option String
  publishedAt : Option String
  deriving Repr, DecidableEq

/-- One item of the secondary `videos.list` response: `vid["id"]` and
`vid["contentDetails"]["duration"]` (ISO-8601 duration text). -/
structure DetailItem where
  id : String
  duration : String
  deriving Repr, DecidableEq

/-- The result dict built by `search_videos` on lines 110–119. -/
structure VideoResource where
  title : String
  channel : String
  video_id : String
  url : String
  published_at : String
  duration : String
  deriving Repr, DecidableEq

/-- State machine for ISO-8601 durations: `cur` is the digit group being
read, `acc` the accumulated seconds, `afterT` whether the `T` separator has
been passed, `sawComp` whether at least one component was consumed. -/
def parseISOAux : List Char → Option Nat → Nat → Bool → Bool → Option Nat
  | [], cur, acc, _, sawComp =>
    match cur with
    | some _ => none
    | none => if sawComp then some acc else none
  | c :: rest, cur, acc, afterT, sawComp =>
    if c.isDigit then
      parseISOAux rest (some ((cur.getD 0) * 10 + (c.toNat - 48))) acc afterT sawComp
    else if c = 'T' && cur.isNone && !afterT then
      parseISOAux rest none acc true sawComp
    else
      match cur with
      | none => none
      | some n =>
        if !afterT && c = 'D' then parseISOAux rest none (acc + n * 86400) afterT true
        else if afterT && c = 'H' then parseISOAux rest none (acc + n * 3600) afterT true
        else if afterT && c = 'M' then parseISOAux rest none (acc + n * 60) afterT true
        else if afterT && c = 'S' then parseISOAux rest none (acc + n) afterT true
        else none

/-- Modelled from the spec: the third-party `isodate.parse_duration` (not in
`src/`), which parses an ISO-8601 duration string and whose
`total_seconds()` the code then truncates to an integer.  The model accepts
`P[nD][T[nH][nM][nS]]` with whole-number components and fails (like the
library raising `ValueError`) on anything else. -/
def parseISODuration (s : String) : Option Nat :=
  match s.data with
  | 'P' :: rest => parseISOAux rest none 0 false false
  | _ => none

/-- Python `f"{n:02d}"` for `n ≥ 0`: decimal digits, zero-padded to width 2. -/
def pad2 (n : Nat) : String := if n < 10 then "0" ++ toString n else toString n

/-- Lines 105–107 of `youtube_client.py`: minutes are
`total_seconds // 60`, seconds `total_seconds % 60`, rendered as
`f"{minutes}:{seconds:02d}"`. -/
def formatMS (t : Nat) : String := toString (t / 60) ++ ":" ++ pad2 (t % 60)

/-- Lines 99–109: the `duration_str` computed for one item, from the dict
lookup result.  Python's `if duration_iso:` is false both for `None` and for
the empty string; a parse failure falls back to the raw ISO text. -/
def durationString (duration_iso : Option String) : String :=
  match duration_iso with
  | none => ""
  | some iso =>
    if iso = "" then ""
    else
      match parseISODuration iso with
      | some t => formatMS t
      | none => iso

/-- Lookup in the `durations` dict built on lines 76–86: later bindings
overwrite earlier ones, so the association list is searched from the back. -/
def dictGet (l : List (String × String)) (k : String) : Option String :=
  l.reverse.lookup k

/-- `search_videos` (lines 21–120 of `youtube_client.py`), with the two
network responses passed explicitly: `primary` is the `search.list` call
(`error` = the caught `HttpError` on lines 66–68), `details` the
`videos.list` call (`error` = the caught `HttpError` on lines 87–89, which
leaves the `durations` dict empty). -/
def search_videos (primary : Except String (List SearchItem))
    (details : Except String (List DetailItem)) : List VideoResource :=
  match primary with
  | .error _ => []
  | .ok items =>
    if items.isEmpty then []
    else
      let durations : List (String × String) :=
        match details with
        | .error _ => []
        | .ok vids => vids.map fun v => (v.id, v.duration)
      items.map fun item =>
        let vid_id := item.videoId
        { title := item.title.getD ""
          channel := item.channelTitle.getD ""
          video_id := vid_id
          url := "https://www.youtube.com/watch?v=" ++ vid_id
          published_at := item.publishedAt.getD ""
          duration := durationString (dictGet durations vid_id) }

/-! ## Medium client (`medium_client.py`) -/

/-- One parsed feed entry; each field read with `entry.get(key, "")` may be
absent. -/
structure FeedEntry where
  title : Option String
  link : Option String
  published : Option String
  updated : Option String
  summary : Option String
  deriving Repr, DecidableEq

/-- The article dict built by `get_articles_for_tag` on lines 43–50. -/
structure ArticleResource where
  title : String
  url : String
  published : String
  summary : String
  deriving Repr, DecidableEq

/-- `get_articles_for_tag` (lines 18–51 of `medium_client.py`), with the
parsed feed entries passed explicitly.  Python's
`entry.get("published", "") or entry.get("updated", "")` falls back to
`updated` when `published` is absent or empty. -/
def get_articles_for_tag (entries : List FeedEntry) (max_articles : Nat) :
    List ArticleResource :=
  (entries.take max_articles).map fun entry =>
    { title := entry.title.getD ""
      url := entry.link.getD ""
      published :=
        let p := entry.published.getD ""
        if p = "" then entry.updated.getD "" else p
      summary := entry.summary.getD "" }

/-- The first `n` elements of the infinite cyclic repetition of `s`: for
non-empty `s`, `n` copies are always enough. -/
def cycleTake (n : Nat) (s : List α) : List α :=
  ((List.replicate n s).flatten).take n

/-- A non-whitespace character. -/
def nonSpace (c : Char) : Bool := !pyIsSpace c

/-- Drop only trailing whitespace. -/
def stripRight (l : List Char) : List Char :=
  (l.reverse.dropWhile pyIsSpace).reverse

/-- Split into maximal whitespace-free words, discarding all whitespace —
Python's `str.split()` with no argument. -/
def splitWS (l : List Char) : List (List Char) :=
  match h : l.dropWhile pyIsSpace with
  | [] => []
  | c :: rest =>
    ((c :: rest).takeWhile nonSpace) :: splitWS ((c :: rest).dropWhile nonSpace)
termination_by l.length
decreasing_by
  have hc : pyIsSpace c = false := by
    have h5 := List.head?_dropWhile_not pyIsSpace l
    rw [h] at h5
    simpa using h5
  have h1 : (c :: rest).length ≤ l.length := by
    have h6 := (List.dropWhile_sublist (l := l) pyIsSpace).length_le
    rw [h] at h6
    exact h6
  have h2 : ((c :: rest).dropWhile nonSpace).length ≤ rest.length := by
    rw [List.dropWhile_cons_of_pos (by simp [nonSpace, hc])]
    exact (List.dropWhile_sublist _).length_le
  simp only [List.length_cons] at h1
  omega

/-- Join words with single hyphens between them. -/
def joinWords : List (List Char) → List Char
  | [] => []
  | [w] => w
  | w :: ws => w ++ '-' :: joinWords ws

/-- The slug described by the spec's words: the skill lower-cased, trimmed
of boundary whitespace, and with every internal whitespace run replaced by
a single hyphen — realised independently of the code as splitting into
words and re-joining with hyphens. -/
def spec_slug (skill : String) : String :=
  ⟨joinWords (splitWS (skill.data.map pyToLower))⟩

/-- The duration shape asserted by the spec for a known duration: the
`M:SS` rendering of some total number of seconds, or the empty string. -/
def IsSpecDuration (s : String) : Prop :=
  s = "" ∨ ∃ t : Nat, s = formatMS t

/-- Concrete search item used in witnesses. -/
def itemEx : SearchItem :=
  { videoId := "abc", title := some "t", channelTitle := some "c",
    publishedAt := some "p" }

/-- The resource `search_videos` builds from `itemEx` when no duration is
available. -/
def resourceEx : VideoResource :=
  { title := "t", channel := "c", video_id := "abc",
    url := "https://www.youtube.com/watch?v=abc", published_at := "p",
    duration := "" }

/-- The resource `search_videos` builds from `itemEx` when the details
lookup returns the unparseable duration text `banana`. -/
def resourceBanana : VideoResource :=
  { title := "t", channel := "c", video_id := "abc",
    url := "https://www.youtube.com/watch?v=abc", published_at := "p",
    duration := "banana" }

/-- The resource `search_videos` builds from `itemEx` when the details
lookup returns the ISO duration `PT2M5S` (125 seconds). -/
def resourceTwoFive : VideoResource :=
  { title := "t", channel := "c", video_id := "abc",
    url := "https://www.youtube.com/watch?v=abc", published_at := "p",
    duration := "2:05" }

/-- Concrete feed entry with no `published` field but an `updated` field,
used for the C8 counterexample. -/
def entryUpdatedOnly : FeedEntry :=
  { title := none, link := none, published := none,
    updated := some "2024-01-01", summary := none }

/-- The article `get_articles_for_tag` builds from `entryUpdatedOnly`. -/
def articleUpdatedOnly : ArticleResource :=
  { title := "", url := "", published := "2024-01-01", summary := "" }

example : tag_slug " Machine  Learning " = "machine-learning" := by decide

example : parseISODuration "PT2M5S" = some 125 := by decide

example : parseISODuration "P1DT2H3M4S" = some 93784 := by decide

example : parseISODuration "banana" = none := by decide

example : parseISODuration "PT" = none := by decide

example : durationString (some "PT2M5S") = "2:05" := by decide

example : durationString none = "" := by decide

example : durationString (some "banana") = "banana" := by decide

/-! ## Properties of the padding loop -/

/-- The padding loop on an empty list is a no-op (the guard fails at once). -/
theorem padLoop_nil (total : Nat) : padLoop total ([] : List α) = [] :=
  padLoop_stop (by simp)

/-- After the loop, a non-empty list has reached the required length. -/
theorem padLoop_length_ge (total : Nat) (s : List α) (h : s ≠ []) :
    total ≤ (padLoop total s).length := by
  by_cases hlt : s.length < total
  · rw [padLoop_go hlt (List.isEmpty_eq_false.mpr h)]
    exact padLoop_length_ge total (s ++ s) (fun hc => h (List.append_eq_nil.mp hc).1)
  · rw [padLoop_stop (fun hc => hlt hc.1)]
    omega
termination_by total - s.length
decreasing_by
  have := List.length_pos.mpr h
  simp only [List.length_append]
  omega

/-- Flattening `m` copies of a doubled list is flattening `2 * m` copies. -/
theorem flatten_replicate_double (m : Nat) (s : List α) :
    (List.replicate m (s ++ s)).flatten = (List.replicate (2 * m) s).flatten := by
  induction m with
  | zero => rfl
  | succ k ih =>
    have h2 : 2 * (k + 1) = 2 * k + 1 + 1 := by omega
    rw [h2]
    simp [List.replicate_succ, ih, List.append_assoc]

/-- The padding loop only ever concatenates copies of the original list. -/
theorem padLoop_eq_flatten_replicate (total : Nat) (s : List α) :
    ∃ m, 1 ≤ m ∧ padLoop total s = (List.replicate m s).flatten := by
  by_cases hc : s.length < total ∧ s.isEmpty = false
  · rw [padLoop_go hc.1 hc.2]
    obtain ⟨m, hm, heq⟩ := padLoop_eq_flatten_replicate total (s ++ s)
    exact ⟨2 * m, by omega, by rw [heq, flatten_replicate_double]⟩
  · rw [padLoop_stop hc]
    exact ⟨1, le_refl 1, by simp⟩
termination_by total - s.length
decreasing_by
  have := List.length_pos.mpr (List.isEmpty_eq_false.mp hc.2)
  simp only [List.length_append]
  omega

/-- Length of the flattening of `m` copies of `s`. -/
theorem length_flatten_replicate (m : Nat) (s : List α) :
    ((List.replicate m s).flatten).length = m * s.length := by
  rw [List.length_flatten, List.map_replicate, List.sum_const_nat]

/-- The first `n` elements of a concatenation of copies of `s` do not depend
on the number of copies, as long as there are enough of them. -/
theorem take_flatten_replicate_of_le (s : List α) {n m₁ m₂ : Nat}
    (h₁ : n ≤ m₁ * s.length) (h₂ : m₁ ≤ m₂) :
    ((List.replicate m₂ s).flatten).take n = ((List.replicate m₁ s).flatten).take n := by
  have hsplit : List.replicate m₂ s = List.replicate m₁ s ++ List.replicate (m₂ - m₁) s := by
    rw [← List.replicate_add]
    congr 1
    omega
  rw [hsplit, List.flatten_append, List.take_append_of_le_length]
  rw [length_flatten_replicate]
  exact h₁

/-- **C2**: for every non-empty sequence `s` and required total `n`, the
padding step (repeatedly appending the sequence to itself until its length
is at least `n`, then truncating to `n`) yields exactly the first `n`
elements of the infinite cyclic repetition of `s`. -/
theorem padding_is_cyclic_take {α : Type} (s : List α) (n : Nat) (h : s ≠ []) :
    (padLoop n s).take n = cycleTake n s := by
  obtain ⟨m, hm1, heq⟩ := padLoop_eq_flatten_replicate n s
  have hpos : 0 < s.length := List.length_pos.mpr h
  have hlen : n ≤ m * s.length := by
    have h2 := padLoop_length_ge n s h
    rwa [heq, length_flatten_replicate] at h2
  have hn : n ≤ n * s.length := Nat.le_mul_of_pos_right n hpos
  rw [heq, cycleTake]
  rcases Nat.le_total m n with hmn | hnm
  · exact (take_flatten_replicate_of_le s hlen hmn).symm
  · exact take_flatten_replicate_of_le s hn hnm

/-- **C2 witness**: a raw sequence of length 3 padded to required total 7
gives the elements at cyclic indices 0,1,2,0,1,2,0. -/
theorem padding_is_cyclic_take_witness :
    (padLoop 7 [0, 1, 2]).take 7 = cycleTake 7 [0, 1, 2]
    ∧ cycleTake 7 [0, 1, 2] = [0, 1, 2, 0, 1, 2, 0] :=
  ⟨padding_is_cyclic_take [0, 1, 2] 7 (by decide), by decide⟩

/-- **C9**: the padding loop terminates on every input.  `padFuel` runs the
same loop but gives up (`none`) when its fuel is exhausted; for every
sequence `s` and required total, some finite fuel suffices and the value
reached is the one `padLoop` computes. -/
theorem padLoop_terminates (total : Nat) (s : List α) :
    ∃ fuel r, padFuel fuel total s = some r ∧ padLoop total s = r := by
  by_cases hc : s.length < total ∧ s.isEmpty = false
  · obtain ⟨fuel, r, hf, hp⟩ := padLoop_terminates total (s ++ s)
    refine ⟨fuel + 1, r, ?_, ?_⟩
    · simp only [padFuel]
      rw [if_pos hc]
      exact hf
    · rw [padLoop_go hc.1 hc.2]
      exact hp
  · refine ⟨0, s, ?_, padLoop_stop hc⟩
    simp only [padFuel]
    rw [if_neg hc]
termination_by total - s.length
decreasing_by
  have := List.length_pos.mpr (List.isEmpty_eq_false.mp hc.2)
  simp only [List.length_append]
  omega

/-! ## Weekly partition totals -/

/-- Each weekly slice of a list of length `weeks * v` has length exactly
`v`, so the slice lengths sum to `weeks * v`. -/
theorem sum_slice_lengths (l : List α) (weeks v : Nat) (hlen : l.length = weeks * v) :
    ((List.range weeks).map fun k => (pySlice l (k * v) ((k + 1) * v)).length).sum
      = weeks * v := by
  have hmap : ∀ k ∈ List.range weeks,
      (pySlice l (k * v) ((k + 1) * v)).length = v := by
    intro k hk
    have hk' : k + 1 ≤ weeks := List.mem_range.mp hk
    have h1 : (k + 1) * v = k * v + v := by ring
    have h2 : (k + 1) * v ≤ weeks * v := Nat.mul_le_mul_right v hk'
    simp only [pySlice, List.length_take, List.length_drop, hlen]
    omega
  rw [List.map_congr_left hmap, List.map_const', List.length_range, List.sum_const_nat]

/-- The padded-then-truncated list is partitioned into weekly slices whose
lengths sum to `weeks * v`, except that an empty raw list gives total 0. -/
theorem padded_partition_sum (weeks v : Nat) (raw : List α) :
    ((List.range weeks).map fun k =>
        (pySlice ((padLoop (weeks * v) raw).take (weeks * v)) (k * v) ((k + 1) * v)).length).sum
      = if raw.isEmpty then 0 else weeks * v := by
  by_cases h : raw.isEmpty = true
  · have hnil : raw = [] := List.isEmpty_iff.mp h
    subst hnil
    rw [padLoop_nil]
    simp [pySlice]
  · rw [if_neg (by simp [h])]
    apply sum_slice_lengths
    rw [List.length_take]
    have h2 := padLoop_length_ge (weeks * v) raw
      (List.isEmpty_eq_false.mp (Bool.not_eq_true _ ▸ h))
    omega

/-- **C1**: in the generated plan, the per-week video list lengths sum to
`weeks * videos_per_week` whenever the video adapter's raw result is
non-empty, and to 0 when the adapter returns nothing; independently the
per-week article list lengths sum to `weeks * articles_per_week` or 0 under
the same rule for the article adapter. -/
theorem plan_resource_totals {V A : Type} (skill : String)
    (weeks vpw apw : Nat)
    (vfn : String → Nat → List V) (afn : String → Nat → List A) :
    (((generate_learning_path skill weeks vpw apw vfn afn).map
          fun w => w.videos.length).sum
        = if (vfn (skill ++ " tutorial") (weeks * vpw)).isEmpty then 0
          else weeks * vpw)
    ∧ (((generate_learning_path skill weeks vpw apw vfn afn).map
          fun w => w.articles.length).sum
        = if (afn (tag_slug skill) (weeks * apw)).isEmpty then 0
          else weeks * apw) := by
  constructor
  · simp only [generate_learning_path, List.map_map]
    exact padded_partition_sum weeks vpw (vfn (skill ++ " tutorial") (weeks * vpw))
  · simp only [generate_learning_path, List.map_map]
    exact padded_partition_sum weeks apw (afn (tag_slug skill) (weeks * apw))

/-! ## Theme assignment -/

/-- **C6**: the generated plan has one entry per week; week indices 0–3
receive, in order, the fixed labels `Foundations`, `Core Concepts`,
`Advanced Topics`, `Project & Practice`, and every index `n ≥ 4` receives
the string `Week n+1`. -/
theorem theme_assignment {V A : Type} (skill : String) (weeks vpw apw : Nat)
    (vfn : String → Nat → List V) (afn : String → Nat → List A) :
    (generate_learning_path skill weeks vpw apw vfn afn).length = weeks
    ∧ ∀ (k : Nat) (wp : WeekPlan V A),
        (generate_learning_path skill weeks vpw apw vfn afn)[k]? = some wp →
        wp.theme = if k = 0 then "Foundations"
          else if k = 1 then "Core Concepts"
          else if k = 2 then "Advanced Topics"
          else if k = 3 then "Project & Practice"
          else s!"Week {k + 1}" := by
  constructor
  · simp [generate_learning_path]
  · intro k wp h
    by_cases hk : k < weeks
    · simp only [generate_learning_path, List.getElem?_map, List.getElem?_range hk,
        Option.map_some'] at h
      have hwp := (Option.some.injEq _ _).mp h
      rw [← hwp]
      rcases k with _ | _ | _ | _ | k
      · rfl
      · rfl
      · rfl
      · rfl
      · rw [dif_neg (by simp [default_themes]), if_neg (by omega), if_neg (by omega),
          if_neg (by omega), if_neg (by omega)]
    · rw [List.getElem?_eq_none (by simpa [generate_learning_path] using Nat.le_of_not_lt hk)] at h
      exact absurd h (by simp)

/-- **C6 witness**: with 6 weeks, index 4 gets theme `Week 5`. -/
theorem theme_assignment_witness :
    ((generate_learning_path "React" 6 0 0 (fun _ _ => ([] : List Unit))
          (fun _ _ => ([] : List Unit)))[4]?
        = some { week := 5, theme := "Week 5", videos := [], articles := [],
                 activities := "Develop a capstone project incorporating multiple concepts of React. Write a blog post or create a video summarising your project and share it." })
    ∧ ({ week := 5, theme := "Week 5", videos := ([] : List Unit), articles := ([] : List Unit),
         activities := "Develop a capstone project incorporating multiple concepts of React. Write a blog post or create a video summarising your project and share it." } : WeekPlan Unit Unit).theme
        = "Week 5" := by
  have h₁ : ((generate_learning_path "React" 6 0 0 (fun _ _ => ([] : List Unit))
        (fun _ _ => ([] : List Unit)))[4]?
      = some { week := 5, theme := "Week 5", videos := [], articles := [],
               activities := "Develop a capstone project incorporating multiple concepts of React. Write a blog post or create a video summarising your project and share it." }) := by
    simp only [generate_learning_path, padLoop_nil]
    decide
  refine ⟨h₁, ?_⟩
  have h₂ := (theme_assignment "React" 6 0 0 (fun _ _ => ([] : List Unit))
    (fun _ _ => ([] : List Unit))).2 4 _ h₁
  simpa using h₂

/-! ## Activities assignment -/

/-- The activities text for week index 0 starts with `S`. -/
theorem suggest_head0 (skill : String) :
    (suggest_activities 0 skill).data.head? = some 'S' := by
  simp [suggest_activities, toString]

/-- The activities text for week index 1 starts with `E`. -/
theorem suggest_head1 (skill : String) :
    (suggest_activities 1 skill).data.head? = some 'E' := by
  simp [suggest_activities, toString]

/-- The activities text for week index 2 starts with `A`. -/
theorem suggest_head2 (skill : String) :
    (suggest_activities 2 skill).data.head? = some 'A' := by
  simp [suggest_activities, toString]

/-- The activities text for week index 3 starts with `D`. -/
theorem suggest_head3 (skill : String) :
    (suggest_activities 3 skill).data.head? = some 'D' := by
  simp [suggest_activities, toString]

/-- Every week index from 3 on receives the week-3 activities text. -/
theorem suggest_of_ge3 (skill : String) {i : Nat} (h : 3 ≤ i) :
    suggest_activities i skill = suggest_activities 3 skill := by
  simp only [suggest_activities]
  rw [if_neg (by omega), if_neg (by omega), if_neg (by omega)]
  simp

/-- The activities text depends only on `min i 3`. -/
theorem suggest_eq_min (i : Nat) (skill : String) :
    suggest_activities i skill = suggest_activities (min i 3) skill := by
  rcases Nat.lt_or_ge i 3 with h | h
  · rw [Nat.min_eq_left (Nat.le_of_lt h)]
  · rw [Nat.min_eq_right h]
    exact suggest_of_ge3 skill h

/-- Two week indices receive the same activities text exactly when they are
truncated to the same value by `min · 3`: the four branch texts are pairwise
distinct (their first characters are `S`, `E`, `A`, `D`) for every skill. -/
theorem suggest_eq_iff (skill : String) (i j : Nat) :
    suggest_activities i skill = suggest_activities j skill ↔ min i 3 = min j 3 := by
  constructor
  · intro h
    rw [suggest_eq_min i skill, suggest_eq_min j skill] at h
    have hb₁ : min i 3 ≤ 3 := Nat.min_le_right _ _
    have hb₂ : min j 3 ≤ 3 := Nat.min_le_right _ _
    generalize min i 3 = m₁ at h hb₁ ⊢
    generalize min j 3 = m₂ at h hb₂ ⊢
    interval_cases m₁ <;> interval_cases m₂ <;>
      first
      | rfl
      | (have h5 := congrArg (fun s : String => s.data.head?) h
         simp only [suggest_head0, suggest_head1, suggest_head2, suggest_head3] at h5
         exact absurd h5 (by decide))
  · intro h
    rw [suggest_eq_min i skill, suggest_eq_min j skill, h]

/-- **C3 (amended)**: `generate_learning_path` assigns week index `k` the
activities text `suggest_activities k skill`, and that text is determined by
`min k 3` — the four cases `0`, `1`, `2`, `≥ 3` map to four pairwise
distinct canned strings (indices `0`, `1` and `≥ 3` interpolate the skill
name; the index-2 text is fixed).  The text is *not* determined by the week
index modulo 4: index 4 gets the `≥ 3` text, not index 0's. -/
theorem activities_assignment :
    (∀ (V A : Type) (skill : String) (weeks vpw apw : Nat)
        (vfn : String → Nat → List V) (afn : String → Nat → List A) (k : Nat)
        (wp : WeekPlan V A),
        (generate_learning_path skill weeks vpw apw vfn afn)[k]? = some wp →
        wp.activities = suggest_activities k skill)
    ∧ (∀ (skill : String) (i j : Nat),
        suggest_activities i skill = suggest_activities j skill ↔ min i 3 = min j 3) := by
  constructor
  · intro V A skill weeks vpw apw vfn afn k wp h
    by_cases hk : k < weeks
    · simp only [generate_learning_path, List.getElem?_map, List.getElem?_range hk,
        Option.map_some'] at h
      have hwp := (Option.some.injEq _ _).mp h
      rw [← hwp]
    · rw [List.getElem?_eq_none
        (by simpa [generate_learning_path] using Nat.le_of_not_lt hk)] at h
      exact absurd h (by simp)
  · exact suggest_eq_iff

/-- **C3 counterexample**: week indices 0 and 4 are congruent modulo 4, yet
the generated plan gives them different activities strings. -/
theorem activities_mod4_counterexample :
    0 % 4 = 4 % 4
    ∧ ((generate_learning_path "React" 5 0 0 (fun _ _ => ([] : List Unit))
          (fun _ _ => ([] : List Unit))).map fun wp => wp.activities)[0]?
      ≠ ((generate_learning_path "React" 5 0 0 (fun _ _ => ([] : List Unit))
          (fun _ _ => ([] : List Unit))).map fun wp => wp.activities)[4]? := by
  refine ⟨rfl, ?_⟩
  simp only [generate_learning_path, padLoop_nil]
  decide

/-- **C3 witness**: in a concrete 2-week plan, week index 1 receives the
index-1 activities text. -/
theorem activities_assignment_witness :
    ((generate_learning_path "React" 2 0 0 (fun _ _ => ([] : List Unit))
          (fun _ _ => ([] : List Unit)))[1]?
        = some { week := 2, theme := "Core Concepts", videos := [], articles := [],
                 activities := "Experiment with building small components or programs using React. Complete exercises from articles and implement variations." })
    ∧ ({ week := 2, theme := "Core Concepts", videos := ([] : List Unit),
         articles := ([] : List Unit),
         activities := "Experiment with building small components or programs using React. Complete exercises from articles and implement variations." } : WeekPlan Unit Unit).activities
        = suggest_activities 1 "React" := by
  have h₁ : ((generate_learning_path "React" 2 0 0 (fun _ _ => ([] : List Unit))
        (fun _ _ => ([] : List Unit)))[1]?
      = some { week := 2, theme := "Core Concepts", videos := [], articles := [],
               activities := "Experiment with building small components or programs using React. Complete exercises from articles and implement variations." }) := by
    simp only [generate_learning_path, padLoop_nil]
    decide
  exact ⟨h₁, activities_assignment.1 Unit Unit "React" 2 0 0 _ _ 1 _ h₁⟩

/-! ## Video search: URL invariant, error handling, duration field -/

/-- **C10**: every video resource produced by `search_videos` has
`url = "https://www.youtube.com/watch?v=" ++ video_id`. -/
theorem url_invariant (primary : Except String (List SearchItem))
    (details : Except String (List DetailItem)) (r : VideoResource)
    (h : r ∈ search_videos primary details) :
    r.url = "https://www.youtube.com/watch?v=" ++ r.video_id := by
  match primary with
  | .error e => simp [search_videos] at h
  | .ok items =>
    by_cases hi : items.isEmpty
    · simp [search_videos, hi] at h
    · simp only [search_videos, if_neg hi, List.mem_map] at h
      obtain ⟨item, hmem, hr⟩ := h
      rw [← hr]

/-- **C10 witness**: the URL invariant at a concrete search response. -/
theorem url_invariant_witness :
    resourceEx ∈ search_videos (Except.ok [itemEx]) (Except.ok [])
    ∧ resourceEx.url = "https://www.youtube.com/watch?v=" ++ resourceEx.video_id := by
  have h₁ : resourceEx ∈ search_videos (Except.ok [itemEx]) (Except.ok []) := by
    decide
  exact ⟨h₁, url_invariant _ _ _ h₁⟩

/-- **C5**: `search_videos` never propagates an adapter error.  A failing
primary search yields the empty list; a failing secondary details lookup
still yields one resource per primary item (same ids, in order), every one
with an empty duration string. -/
theorem search_error_handling :
    (∀ (e : String) (details : Except String (List DetailItem)),
        search_videos (.error e) details = [])
    ∧ (∀ (e : String) (items : List SearchItem),
        ((search_videos (.ok items) (.error e)).map fun r => r.video_id)
            = items.map fun i => i.videoId)
    ∧ (∀ (e : String) (items : List SearchItem) (r : VideoResource),
        r ∈ search_videos (.ok items) (.error e) → r.duration = "") := by
  refine ⟨fun e details => rfl, fun e items => ?_, fun e items r h => ?_⟩
  · by_cases hi : items = []
    · subst hi
      simp [search_videos]
    · simp [search_videos, hi, List.map_map, Function.comp]
  · by_cases hi : items = []
    · subst hi
      simp [search_videos] at h
    · simp only [search_videos, List.isEmpty_eq_false.mpr hi, Bool.false_eq_true,
        if_false, List.mem_map] at h
      obtain ⟨item, hmem, hr⟩ := h
      rw [← hr]
      rfl

/-- **C5 witness**: a failing details lookup at a concrete search response
keeps the item and empties its duration. -/
theorem search_error_handling_witness :
    (search_videos (.error "boom") (Except.ok ([] : List DetailItem)) = [])
    ∧ ((search_videos (Except.ok [itemEx])
          (Except.error "boom" : Except String (List DetailItem))).map
            fun r => r.video_id) = ["abc"]
    ∧ (resourceEx ∈ search_videos (Except.ok [itemEx])
          (Except.error "boom" : Except String (List DetailItem)))
    ∧ resourceEx.duration = "" := by
  have h₁ : resourceEx ∈ search_videos (Except.ok [itemEx])
      (Except.error "boom" : Except String (List DetailItem)) := by decide
  refine ⟨search_error_handling.1 "boom" _, ?_, h₁,
    search_error_handling.2.2 "boom" _ _ h₁⟩
  have h₂ := search_error_handling.2.1 "boom" [itemEx]
  rw [h₂]
  decide

/-- The `M:SS` rendering always contains a colon. -/
theorem colon_mem_formatMS (t : Nat) : ':' ∈ (formatMS t).data := by
  have h : (formatMS t).data
      = ((toString (t / 60)).data ++ ":".data) ++ (pad2 (t % 60)).data := rfl
  rw [h]
  exact List.mem_append.mpr (Or.inl (List.mem_append.mpr (Or.inr (by decide))))

/-- The three shapes a `duration_str` can take: empty (no or empty ISO
text), `M:SS` (the ISO text parsed), or the raw ISO text (parse failure). -/
theorem durationString_cases (o : Option String) :
    durationString o = ""
    ∨ (∃ t : Nat, durationString o = formatMS t)
    ∨ ∃ iso : String, parseISODuration iso = none ∧ iso ≠ ""
        ∧ durationString o = iso := by
  match o with
  | none => exact Or.inl rfl
  | some iso =>
    by_cases h : iso = ""
    · exact Or.inl (by simp [durationString, h])
    · cases hp : parseISODuration iso with
      | some t => exact Or.inr (Or.inl ⟨t, by simp [durationString, h, hp]⟩)
      | none => exact Or.inr (Or.inr ⟨iso, hp, h, by simp [durationString, h, hp]⟩)

/-- Lookup fails on an association list none of whose keys match. -/
theorem lookup_eq_none_of_not_mem {l : List (String × String)} {k : String}
    (h : ∀ p ∈ l, p.1 ≠ k) : l.lookup k = none := by
  induction l with
  | nil => rfl
  | cons p t ih =>
    have hp : p.1 ≠ k := h p (List.mem_cons_self p t)
    have hbeq : (k == p.1) = false := beq_eq_false_iff_ne.mpr (fun he => hp he.symm)
    simp only [List.lookup, hbeq]
    exact ih fun q hq => h q (List.mem_cons_of_mem p hq)

/-- A key bound by no entry of the duration dict resolves to `none`. -/
theorem dictGet_eq_none {l : List (String × String)} {k : String}
    (h : ∀ p ∈ l, p.1 ≠ k) : dictGet l k = none :=
  lookup_eq_none_of_not_mem fun p hp => h p (List.mem_reverse.mp hp)

/-- **C4 (amended)**: every duration field produced by `search_videos` is
either the `M:SS` rendering (seconds zero-padded to two digits) of a parsed
ISO-8601 duration, or the empty string, or — when the upstream ISO text
fails to parse — that raw text unchanged.  An ISO duration of 125 seconds
renders as `2:05`, and a duration-lookup failure for an id yields the empty
string rather than an error. -/
theorem duration_field_shape :
    (∀ (primary : Except String (List SearchItem))
        (details : Except String (List DetailItem)) (r : VideoResource),
        r ∈ search_videos primary details →
        r.duration = ""
        ∨ (∃ t : Nat, r.duration = formatMS t)
        ∨ ∃ iso : String, parseISODuration iso = none ∧ iso ≠ ""
            ∧ r.duration = iso)
    ∧ durationString (some "PT2M5S") = "2:05"
    ∧ (∀ (items : List SearchItem) (dv : List DetailItem) (r : VideoResource),
        r ∈ search_videos (.ok items) (.ok dv) →
        (∀ d ∈ dv, d.id ≠ r.video_id) → r.duration = "") := by
  refine ⟨?_, by decide, ?_⟩
  · intro primary details r h
    match primary with
    | .error e => simp [search_videos] at h
    | .ok items =>
      by_cases hi : items = []
      · subst hi
        simp [search_videos] at h
      · simp only [search_videos, List.isEmpty_eq_false.mpr hi, Bool.false_eq_true,
          if_false, List.mem_map] at h
        obtain ⟨item, hmem, hr⟩ := h
        rw [← hr]
        exact durationString_cases _
  · intro items dv r h hd
    by_cases hi : items = []
    · subst hi
      simp [search_videos] at h
    · simp only [search_videos, List.isEmpty_eq_false.mpr hi, Bool.false_eq_true,
        if_false, List.mem_map] at h
      obtain ⟨item, hmem, hr⟩ := h
      have hid : ∀ p ∈ dv.map fun v => (v.id, v.duration), p.1 ≠ item.videoId := by
        intro p hp
        obtain ⟨d, hdm, hpd⟩ := List.mem_map.mp hp
        rw [← hpd]
        have := hd d hdm
        rw [← hr] at this
        exact this
      rw [← hr]
      have hnone := dictGet_eq_none hid
      simp only [hnone]
      rfl

/-- **C4 counterexample**: with an unparseable upstream duration text, the
returned duration is that raw text — neither empty nor of `M:SS` shape. -/
theorem duration_form_counterexample :
    ((search_videos (Except.ok [itemEx])
        (Except.ok [{ id := "abc", duration := "banana" }])).map
          fun r => r.duration) = ["banana"]
    ∧ ¬ IsSpecDuration "banana" := by
  refine ⟨by decide, ?_⟩
  rintro (h | ⟨t, ht⟩)
  · exact absurd h (by decide)
  · have hc := colon_mem_formatMS t
    rw [← ht] at hc
    exact absurd hc (by decide)

/-- **C4 witness**: a concrete 125-second ISO duration renders as `2:05`,
and a concrete lookup failure yields the empty duration. -/
theorem duration_field_shape_witness :
    (resourceTwoFive ∈ search_videos (Except.ok [itemEx])
        (Except.ok [{ id := "abc", duration := "PT2M5S" }]))
    ∧ (resourceTwoFive.duration = ""
        ∨ (∃ t : Nat, resourceTwoFive.duration = formatMS t)
        ∨ ∃ iso : String, parseISODuration iso = none ∧ iso ≠ ""
            ∧ resourceTwoFive.duration = iso)
    ∧ (resourceEx ∈ search_videos (Except.ok [itemEx])
        (Except.ok ([] : List DetailItem)))
    ∧ (∀ d ∈ ([] : List DetailItem), d.id ≠ resourceEx.video_id)
    ∧ resourceEx.duration = "" := by
  have h₁ : resourceTwoFive ∈ search_videos (Except.ok [itemEx])
      (Except.ok [{ id := "abc", duration := "PT2M5S" }]) := by decide
  have h₂ : resourceEx ∈ search_videos (Except.ok [itemEx])
      (Except.ok ([] : List DetailItem)) := by decide
  have h₃ : ∀ d ∈ ([] : List DetailItem), d.id ≠ resourceEx.video_id := by
    intro d hd
    exact absurd hd (by simp)
  exact ⟨h₁, duration_field_shape.1 _ _ _ h₁, h₂, h₃,
    duration_field_shape.2.2 _ _ _ h₂ h₃⟩

/-! ## Article fetching -/

/-- **C8 (amended)**: `get_articles_for_tag` returns `min max_results
(number of entries)` articles — in particular at most `max_results` — in
the feed's native order (the `k`-th article comes from the `k`-th entry);
missing `title`, `url` and `summary` fields default to the empty string,
while the `published` field falls back to the entry's `updated` value when
`published` is absent or empty, and only to the empty string when both are
missing. -/
theorem articles_shape (entries : List FeedEntry) (max_results : Nat) :
    (get_articles_for_tag entries max_results).length
        = min max_results entries.length
    ∧ ∀ (k : Nat) (a : ArticleResource),
        (get_articles_for_tag entries max_results)[k]? = some a →
        ∃ e, entries[k]? = some e
          ∧ a.title = e.title.getD ""
          ∧ a.url = e.link.getD ""
          ∧ a.summary = e.summary.getD ""
          ∧ a.published = (if e.published.getD "" = "" then e.updated.getD ""
              else e.published.getD "") := by
  constructor
  · simp [get_articles_for_tag]
  · intro k a h
    simp only [get_articles_for_tag, List.getElem?_map] at h
    cases he : (entries.take max_results)[k]? with
    | none =>
      rw [he] at h
      exact absurd h (by simp)
    | some e =>
      rw [he] at h
      simp only [Option.map_some'] at h
      have ha := (Option.some.injEq _ _).mp h
      have hk : k < max_results := by
        by_contra hk
        rw [List.getElem?_take_eq_none (Nat.le_of_not_lt hk)] at he
        exact absurd he (by simp)
      have he' : entries[k]? = some e := by
        rwa [List.getElem?_take_of_lt hk] at he
      exact ⟨e, he', by rw [← ha], by rw [← ha], by rw [← ha], by rw [← ha]⟩

/-- **C8 counterexample**: an entry with no `published` field but an
`updated` field yields an article whose `published` is the `updated` value,
not the empty string. -/
theorem published_fallback_counterexample :
    ((get_articles_for_tag [entryUpdatedOnly] 1).map fun a => a.published)
      = ["2024-01-01"]
    ∧ "2024-01-01" ≠ ""
    ∧ entryUpdatedOnly.published = none := by decide

/-- **C8 witness**: the article shape at a concrete single-entry feed. -/
theorem articles_shape_witness :
    ((get_articles_for_tag [entryUpdatedOnly] 3)[0]? = some articleUpdatedOnly)
    ∧ ∃ e, [entryUpdatedOnly][0]? = some e
        ∧ articleUpdatedOnly.title = e.title.getD ""
        ∧ articleUpdatedOnly.url = e.link.getD ""
        ∧ articleUpdatedOnly.summary = e.summary.getD ""
        ∧ articleUpdatedOnly.published = (if e.published.getD "" = ""
            then e.updated.getD "" else e.published.getD "") := by
  have h₁ : (get_articles_for_tag [entryUpdatedOnly] 3)[0]?
      = some articleUpdatedOnly := by decide
  exact ⟨h₁, (articles_shape [entryUpdatedOnly] 3).2 0 _ h₁⟩

/-! ## Tag slug derivation -/

/-- Lower-casing never changes whether a character is whitespace. -/
theorem pyIsSpace_pyToLower (c : Char) : pyIsSpace (pyToLower c) = pyIsSpace c := by
  unfold pyToLower
  split <;> rfl

/-- `dropWhile whitespace` commutes with lower-casing. -/
theorem dropWhile_map_toLower (l : List Char) :
    (l.map pyToLower).dropWhile pyIsSpace = (l.dropWhile pyIsSpace).map pyToLower := by
  have hpf : (pyIsSpace ∘ pyToLower) = pyIsSpace := funext pyIsSpace_pyToLower
  rw [List.dropWhile_map, hpf]

/-- `strip` commutes with lower-casing. -/
theorem pyStrip_map_toLower (l : List Char) :
    pyStrip (l.map pyToLower) = (pyStrip l).map pyToLower := by
  unfold pyStrip
  rw [dropWhile_map_toLower, ← List.map_reverse, dropWhile_map_toLower,
    ← List.map_reverse]

/-- Unfolding `subSpaceRuns` at a non-whitespace head. -/
theorem subSpaceRuns_cons_of_neg {c : Char} (h : pyIsSpace c = false) (t : List Char) :
    subSpaceRuns (c :: t) = c :: subSpaceRuns t := by
  simp [subSpaceRuns, subRunsAux, h]

/-- The in-run state of the substitution pass skips the rest of the current
whitespace run. -/
theorem subRunsAux_true (l : List Char) :
    subRunsAux true l = subSpaceRuns (l.dropWhile pyIsSpace) := by
  induction l with
  | nil => rfl
  | cons c t ih =>
    by_cases h : pyIsSpace c
    · simp [subRunsAux, h, ih]
    · simp only [List.dropWhile_cons_of_neg h]
      simp [subRunsAux, subSpaceRuns, h]

/-- Unfolding `subSpaceRuns` at a whitespace head: one hyphen is emitted
and the whole whitespace run is consumed. -/
theorem subSpaceRuns_cons_of_pos {c : Char} (h : pyIsSpace c = true) (t : List Char) :
    subSpaceRuns (c :: t) = '-' :: subSpaceRuns (t.dropWhile pyIsSpace) := by
  simp [subSpaceRuns, subRunsAux, h, subRunsAux_true]

/-- A whitespace-free prefix passes through the substitution unchanged. -/
theorem subSpaceRuns_append_nonws {w : List Char}
    (h : ∀ x ∈ w, pyIsSpace x = false) (r : List Char) :
    subSpaceRuns (w ++ r) = w ++ subSpaceRuns r := by
  induction w with
  | nil => rfl
  | cons c t ih =>
    have hc := h c (List.mem_cons_self c t)
    rw [List.cons_append, subSpaceRuns_cons_of_neg hc,
      ih fun x hx => h x (List.mem_cons_of_mem c hx), List.cons_append]

/-- A whitespace-free list passes through the substitution unchanged. -/
theorem subSpaceRuns_eq_self {w : List Char}
    (h : ∀ x ∈ w, pyIsSpace x = false) : subSpaceRuns w = w := by
  have h2 := subSpaceRuns_append_nonws h []
  simpa [subSpaceRuns, subRunsAux] using h2

/-- `dropWhile` is the identity on a list without whitespace. -/
theorem dropWhile_eq_self_of_neg {l : List Char}
    (h : ∀ x ∈ l, pyIsSpace x = false) : l.dropWhile pyIsSpace = l := by
  cases l with
  | nil => rfl
  | cons c t =>
    exact List.dropWhile_cons_of_neg (by simp [h c (List.mem_cons_self c t)])

/-- Dropping leading whitespace is idempotent. -/
theorem dropWhile_ws_idem (l : List Char) :
    (l.dropWhile pyIsSpace).dropWhile pyIsSpace = l.dropWhile pyIsSpace := by
  cases h : l.dropWhile pyIsSpace with
  | nil => rfl
  | cons c t =>
    have hc : pyIsSpace c = false := by
      have h5 := List.head?_dropWhile_not pyIsSpace l
      rw [h] at h5
      simpa using h5
    exact List.dropWhile_cons_of_neg (by simp [hc])

/-- An all-whitespace suffix is invisible to `stripRight`. -/
theorem stripRight_append_all_ws {b : List Char}
    (h : ∀ x ∈ b, pyIsSpace x = true) (a : List Char) :
    stripRight (a ++ b) = stripRight a := by
  unfold stripRight
  rw [List.reverse_append,
    List.dropWhile_append_of_pos fun x hx => by simp [h x (List.mem_reverse.mp hx)]]

/-- `stripRight` is the identity on a list without whitespace. -/
theorem stripRight_eq_self {w : List Char}
    (h : ∀ x ∈ w, pyIsSpace x = false) : stripRight w = w := by
  unfold stripRight
  rw [dropWhile_eq_self_of_neg fun x hx => h x (List.mem_reverse.mp hx),
    List.reverse_reverse]

/-- `stripRight` acts only inside the last part that still holds a
non-whitespace character. -/
theorem stripRight_append_of_mem {b : List Char}
    (h : ∃ x ∈ b, pyIsSpace x = false) (a : List Char) :
    stripRight (a ++ b) = a ++ stripRight b := by
  unfold stripRight
  rw [List.reverse_append, List.dropWhile_append]
  have hne : (b.reverse.dropWhile pyIsSpace).isEmpty = false := by
    obtain ⟨x, hxb, hx⟩ := h
    rw [List.isEmpty_eq_false]
    intro h0
    have hall := List.dropWhile_eq_nil_iff.mp h0
    have := hall x (List.mem_reverse.mpr hxb)
    rw [hx] at this
    exact absurd this (by simp)
  rw [hne]
  simp

/-- `stripRight` keeps a non-whitespace head. -/
theorem stripRight_cons_of_neg {d : Char} (hd : pyIsSpace d = false) (y : List Char) :
    stripRight (d :: y) = d :: stripRight y := by
  by_cases hy : ∀ x ∈ y, pyIsSpace x = true
  · rw [show d :: y = [d] ++ y from rfl, stripRight_append_all_ws hy]
    have h1 : stripRight [d] = [d] := stripRight_eq_self (by simp [hd])
    have h2 : stripRight y = [] := by
      unfold stripRight
      rw [List.dropWhile_eq_nil_iff.mpr fun x hx => by
        simp [hy x (List.mem_reverse.mp hx)]]
      rfl
    rw [h1, h2]
  · push_neg at hy
    obtain ⟨x, hx, hxf⟩ := hy
    rw [show d :: y = [d] ++ y from rfl,
      stripRight_append_of_mem ⟨x, hx, by simpa using hxf⟩]
    rfl

/-- `splitWS` of an all-whitespace (or empty) list. -/
theorem splitWS_eq_nil {l : List Char} (h : l.dropWhile pyIsSpace = []) :
    splitWS l = [] := by
  rw [splitWS]
  split <;> simp_all

/-- `splitWS` unfolding once leading whitespace has been located. -/
theorem splitWS_eq_cons {l : List Char} {c : Char} {rest : List Char}
    (h : l.dropWhile pyIsSpace = c :: rest) :
    splitWS l = ((c :: rest).takeWhile nonSpace)
      :: splitWS ((c :: rest).dropWhile nonSpace) := by
  rw [splitWS]
  split <;> simp_all

/-- `splitWS` ignores leading whitespace. -/
theorem splitWS_dropWhile (l : List Char) :
    splitWS (l.dropWhile pyIsSpace) = splitWS l := by
  cases h : l.dropWhile pyIsSpace with
  | nil =>
    rw [splitWS_eq_nil (show ([] : List Char).dropWhile pyIsSpace = [] from rfl),
      splitWS_eq_nil h]
  | cons c rest =>
    have hc : pyIsSpace c = false := by
      have h5 := List.head?_dropWhile_not pyIsSpace l
      rw [h] at h5
      simpa using h5
    rw [splitWS_eq_cons (List.dropWhile_cons_of_neg (by simp [hc])),
      splitWS_eq_cons h]

/-- `joinWords` separates two or more words by a single hyphen. -/
theorem joinWords_cons_cons (w y : List Char) (ys : List (List Char)) :
    joinWords (w :: y :: ys) = w ++ '-' :: joinWords (y :: ys) := rfl

/-- Substituting whitespace runs after a full strip agrees with splitting
into words and re-joining with hyphens, for every input: the heart of the
slug equivalence. -/
theorem subSpaceRuns_pyStrip_eq (N : Nat) :
    ∀ l : List Char, l.length ≤ N →
      subSpaceRuns (pyStrip l) = joinWords (splitWS l) := by
  induction N with
  | zero =>
    intro l hl
    have h0 : l = [] := List.length_eq_zero.mp (Nat.le_zero.mp hl)
    subst h0
    rw [splitWS_eq_nil (show ([] : List Char).dropWhile pyIsSpace = [] from rfl)]
    rfl
  | succ n ih =>
    intro l hl
    cases hd : l.dropWhile pyIsSpace with
    | nil =>
      rw [splitWS_eq_nil hd]
      have hp : pyStrip l = [] := by
        unfold pyStrip
        rw [hd]
        rfl
      rw [hp]
      rfl
    | cons c rest =>
      have hc : pyIsSpace c = false := by
        have h5 := List.head?_dropWhile_not pyIsSpace l
        rw [hd] at h5
        simpa using h5
      have hlen_cr : (c :: rest).length ≤ l.length := by
        have h6 := (List.dropWhile_sublist (l := l) pyIsSpace).length_le
        rw [hd] at h6
        exact h6
      have hw_all : ∀ x ∈ (c :: rest).takeWhile nonSpace, pyIsSpace x = false := by
        intro x hx
        have h7 := List.mem_takeWhile_imp hx
        simpa [nonSpace] using h7
      have hsplit : (c :: rest).takeWhile nonSpace ++ (c :: rest).dropWhile nonSpace
          = c :: rest := List.takeWhile_append_dropWhile nonSpace (c :: rest)
      have hpy : pyStrip l = stripRight (c :: rest) := by
        unfold pyStrip stripRight
        rw [hd]
      have hr_len : ((c :: rest).dropWhile nonSpace).length ≤ rest.length := by
        rw [List.dropWhile_cons_of_pos (by simp [nonSpace, hc])]
        exact (List.dropWhile_sublist _).length_le
      rw [splitWS_eq_cons hd, hpy]
      cases hrd : ((c :: rest).dropWhile nonSpace).dropWhile pyIsSpace with
      | nil =>
        have hr_all : ∀ x ∈ (c :: rest).dropWhile nonSpace, pyIsSpace x = true := by
          intro x hx
          have := List.dropWhile_eq_nil_iff.mp hrd x hx
          simpa using this
        rw [splitWS_eq_nil hrd]
        have hsr : stripRight (c :: rest) = (c :: rest).takeWhile nonSpace := by
          conv_lhs => rw [← hsplit]
          rw [stripRight_append_all_ws hr_all, stripRight_eq_self hw_all]
        rw [hsr, subSpaceRuns_eq_self hw_all]
        rfl
      | cons d rest₂ =>
        have hdn : pyIsSpace d = false := by
          have h5 := List.head?_dropWhile_not pyIsSpace ((c :: rest).dropWhile nonSpace)
          rw [hrd] at h5
          simpa using h5
        have hr_ne : (c :: rest).dropWhile nonSpace ≠ [] := by
          intro h0
          rw [h0] at hrd
          exact absurd hrd (by simp)
        have hd_mem : d ∈ (c :: rest).dropWhile nonSpace := by
          have h8 : d ∈ ((c :: rest).dropWhile nonSpace).dropWhile pyIsSpace := by
            rw [hrd]
            exact List.mem_cons_self _ _
          exact (List.dropWhile_sublist pyIsSpace).subset h8
        obtain ⟨e, r₁, hre⟩ : ∃ e r₁, (c :: rest).dropWhile nonSpace = e :: r₁ := by
          cases hh : (c :: rest).dropWhile nonSpace with
          | nil => exact absurd hh hr_ne
          | cons e r₁ => exact ⟨e, r₁, rfl⟩
        have hse : pyIsSpace e = true := by
          have h5 := List.head?_dropWhile_not nonSpace (c :: rest)
          rw [hre] at h5
          simpa [nonSpace] using h5
        have hrsplit : ((c :: rest).dropWhile nonSpace).takeWhile pyIsSpace
            ++ ((c :: rest).dropWhile nonSpace).dropWhile pyIsSpace
            = (c :: rest).dropWhile nonSpace :=
          List.takeWhile_append_dropWhile pyIsSpace _
        have hLHS1 : stripRight (c :: rest)
            = (c :: rest).takeWhile nonSpace
              ++ stripRight ((c :: rest).dropWhile nonSpace) := by
          conv_lhs => rw [← hsplit]
          exact stripRight_append_of_mem ⟨d, hd_mem, hdn⟩ _
        have hLHS2 : stripRight ((c :: rest).dropWhile nonSpace)
            = ((c :: rest).dropWhile nonSpace).takeWhile pyIsSpace
              ++ stripRight (d :: rest₂) := by
          conv_lhs => rw [← hrsplit]
          rw [hrd]
          exact stripRight_append_of_mem ⟨d, List.mem_cons_self _ _, hdn⟩ _
        have hX : stripRight (d :: rest₂) = d :: stripRight rest₂ :=
          stripRight_cons_of_neg hdn rest₂
        have hsplitr : splitWS ((c :: rest).dropWhile nonSpace)
            = splitWS (d :: rest₂) := by
          rw [← hrd, splitWS_dropWhile]
        have hdd : (d :: rest₂).dropWhile pyIsSpace = d :: rest₂ :=
          List.dropWhile_cons_of_neg (by simp [hdn])
        rw [hLHS1, hLHS2, subSpaceRuns_append_nonws hw_all, hsplitr]
        rw [splitWS_eq_cons hdd, joinWords_cons_cons, ← splitWS_eq_cons hdd]
        have hu_eq : ((c :: rest).dropWhile nonSpace).takeWhile pyIsSpace
            = e :: r₁.takeWhile pyIsSpace := by
          rw [hre, List.takeWhile_cons_of_pos hse]
        rw [hu_eq, hX, List.cons_append, subSpaceRuns_cons_of_pos hse]
        have hdrop : (r₁.takeWhile pyIsSpace ++ d :: stripRight rest₂).dropWhile pyIsSpace
            = d :: stripRight rest₂ := by
          rw [List.dropWhile_append_of_pos fun x hx => List.mem_takeWhile_imp hx,
            List.dropWhile_cons_of_neg (by simp [hdn])]
        rw [hdrop, ← hX]
        have hpy2 : pyStrip (d :: rest₂) = stripRight (d :: rest₂) := by
          unfold pyStrip stripRight
          rw [hdd]
        have hlen2 : (d :: rest₂).length ≤ n := by
          have h7 : (d :: rest₂).length ≤ ((c :: rest).dropWhile nonSpace).length := by
            have h9 := (List.dropWhile_sublist (l := (c :: rest).dropWhile nonSpace)
              pyIsSpace).length_le
            rw [hrd] at h9
            exact h9
          simp only [List.length_cons] at hlen_cr h7 hr_len hl ⊢
          omega
        have hih := ih (d :: rest₂) hlen2
        rw [hpy2] at hih
        rw [hih]

/-- **C7**: the article tag slug computed by `generate_learning_path`
(strip, lower-case, then replace every whitespace run by a hyphen) equals,
for every skill string, the spec's description — the skill lower-cased,
trimmed, and with every internal whitespace run collapsed to a single
hyphen (realised as word-split plus hyphen-join); in particular
`" Machine  Learning "` yields `"machine-learning"`. -/
theorem tag_slug_spec :
    (∀ skill : String, tag_slug skill = spec_slug skill)
    ∧ tag_slug " Machine  Learning " = "machine-learning" := by
  refine ⟨?_, by decide⟩
  intro skill
  unfold tag_slug spec_slug
  rw [← pyStrip_map_toLower]
  rw [subSpaceRuns_pyStrip_eq (skill.data.map pyToLower).length _ (Nat.le_refl _)]

example : (padLoop 7 [0, 1, 2]).take 7 = [0, 1, 2, 0, 1, 2, 0] := by
  rw [padLoop_go (by decide) (by decide), padLoop_go (by decide) (by decide),
    padLoop_stop (by decide)]
  decide

end LPG
